import Mathlib

/-!
Verification of the MPPI controller for a differential-drive robot
(`src/mppi_differential_drive.ipynb`, class `MPPIControllerForDifferentialDrive`).

The numeric code is embedded shallowly over the real numbers: every float of
the source becomes an `ℝ`, numpy arrays become functions out of `ℕ` (or
`Fin K`), the in-place mutations of `calc_control_input` become explicit
sequencing of pure definitions, and the gaussian noise draw (the only
random input) is passed in as an explicit argument `eps`.  The aliasing of
the source — `u = self.u_prev` binds `u` to the very same array as the
warm-start buffer, so `u += w_epsilon` and the final left-shift mutate that
one buffer — is modelled faithfully: the returned action and sequence are
read from the buffer after the shift, exactly as the interpreter does.
-/

noncomputable section

namespace MPPI

open Real Finset

/-- A robot state `[x, y, yaw]` (source: 3-entry numpy state vectors). -/
structure State where
  x : ℝ
  y : ℝ
  yaw : ℝ

/-- A control input `[v, w]` (linear velocity, angular velocity). -/
structure Control where
  v : ℝ
  w : ℝ

/-- The fields stored by `MPPIControllerForDifferentialDrive.__init__`.
`sigma` is kept with its shape `(sigma_rows, sigma_cols)` because the only
shape validation of the program (`_calc_epsilon`) inspects it; `dim_u` is the
field `self.dim_u` (always set to 2 by the constructor).  `__init__` performs
no validation whatsoever: `mppi_init` below is a total function. -/
structure MPPIParams where
  dim_u : ℕ
  delta_t : ℝ
  wheel_base : ℝ
  robot_w : ℝ
  robot_l : ℝ
  max_linear_vel : ℝ
  max_angular_vel : ℝ
  goal : State
  T : ℕ
  K : ℕ
  param_exploration : ℝ
  param_lambda : ℝ
  param_alpha : ℝ
  param_gamma : ℝ
  sigma_rows : ℕ
  sigma_cols : ℕ
  sigma : ℕ → ℕ → ℝ
  stage_cost_weight : ℝ × ℝ × ℝ
  terminal_cost_weight : ℝ × ℝ × ℝ
  visualize_optimal_traj : Bool
  visualze_sampled_trajs : Bool
  obstacle_circles : List (ℝ × ℝ × ℝ)
  collision_safety_margin_rate : ℝ

/-- `MPPIControllerForDifferentialDrive.__init__`: stores the configuration,
sets `dim_u = 2` and `param_gamma = param_lambda * (1 - param_alpha)`.
It checks nothing and cannot fail. -/
def mppi_init (delta_t wheel_base robot_width robot_length max_linear_vel max_angular_vel : ℝ)
    (goal : State) (horizon_step_T number_of_samples_K : ℕ)
    (param_exploration param_lambda param_alpha : ℝ)
    (sigma_rows sigma_cols : ℕ) (sigma : ℕ → ℕ → ℝ)
    (stage_cost_weight terminal_cost_weight : ℝ × ℝ × ℝ)
    (visualize_optimal_traj visualze_sampled_trajs : Bool)
    (obstacle_circles : List (ℝ × ℝ × ℝ)) (collision_safety_margin_rate : ℝ) : MPPIParams :=
  { dim_u := 2
    delta_t := delta_t
    wheel_base := wheel_base
    robot_w := robot_width
    robot_l := robot_length
    max_linear_vel := max_linear_vel
    max_angular_vel := max_angular_vel
    goal := goal
    T := horizon_step_T
    K := number_of_samples_K
    param_exploration := param_exploration
    param_lambda := param_lambda
    param_alpha := param_alpha
    param_gamma := param_lambda * (1 - param_alpha)
    sigma_rows := sigma_rows
    sigma_cols := sigma_cols
    sigma := sigma
    stage_cost_weight := stage_cost_weight
    terminal_cost_weight := terminal_cost_weight
    visualize_optimal_traj := visualize_optimal_traj
    visualze_sampled_trajs := visualze_sampled_trajs
    obstacle_circles := obstacle_circles
    collision_safety_margin_rate := collision_safety_margin_rate }

/-- `np.clip x lo hi` (for `lo ≤ hi` the nearest point of `[lo, hi]`). -/
def npclip (x lo hi : ℝ) : ℝ := min (max x lo) hi

/-- `_g`: saturate a control to the configured symmetric velocity limits. -/
def g_limit (p : MPPIParams) (c : Control) : Control :=
  ⟨npclip c.v (-p.max_linear_vel) p.max_linear_vel,
   npclip c.w (-p.max_angular_vel) p.max_angular_vel⟩

/-- `_F`: one step of the differential-drive kinematics with step `delta_t`. -/
def F_dyn (p : MPPIParams) (s : State) (c : Control) : State :=
  ⟨s.x + c.v * Real.cos s.yaw * p.delta_t,
   s.y + c.v * Real.sin s.yaw * p.delta_t,
   s.yaw + c.w * p.delta_t⟩

/-- Python's float `%` for a positive modulus: `a % m = a - m * ⌊a / m⌋`,
the representative of `a` in `[0, m)`. -/
def pymod (a m : ℝ) : ℝ := a - m * (⌊a / m⌋ : ℤ)

/-- The heading error of `_c` and `_phi`:
`((yaw - gyaw + π) % (2π)) - π`. -/
def yawError (yaw gyaw : ℝ) : ℝ := pymod (yaw - gyaw + Real.pi) (2 * Real.pi) - Real.pi

/-- `_c`: the stage cost, a weighted squared error against the goal pose. -/
def stage_cost (p : MPPIParams) (s : State) : ℝ :=
  p.stage_cost_weight.1 * (s.x - p.goal.x) ^ 2
    + p.stage_cost_weight.2.1 * (s.y - p.goal.y) ^ 2
    + p.stage_cost_weight.2.2 * yawError s.yaw p.goal.yaw ^ 2

/-- `_phi`: the terminal cost, same form with the terminal weights. -/
def terminal_cost (p : MPPIParams) (s : State) : ℝ :=
  p.terminal_cost_weight.1 * (s.x - p.goal.x) ^ 2
    + p.terminal_cost_weight.2.1 * (s.y - p.goal.y) ^ 2
    + p.terminal_cost_weight.2.2 * yawError s.yaw p.goal.yaw ^ 2

/-- `S.min()` of `_compute_weights`: the least entry of the cost vector
(the infimum of its range; for a nonempty finite vector, its minimum). -/
def rho {K : ℕ} (S : Fin K → ℝ) : ℝ := sInf (Set.range S)

/-- `_compute_weights`: `w k = (1/η) · exp(-(1/λ)·(S k - ρ))` with
`η = Σ_j exp(-(1/λ)·(S j - ρ))`. -/
def compute_weights (lam : ℝ) {K : ℕ} (S : Fin K → ℝ) (k : Fin K) : ℝ :=
  (1 / ∑ j, Real.exp (-1 / lam * (S j - rho S))) * Real.exp (-1 / lam * (S k - rho S))

/-- `math.ceil(window_size/2)` of `_moving_average_filter`. -/
def n_conv (W : ℕ) : ℕ := (W + 1) / 2

/-- `np.convolve(x, ones(W)/W, mode="same")` on a length-`T` signal, at
index `i` (valid for `W ≤ T`, the only regime in which numpy's `"same"`
output has length `T`): the mean over the window of the (at most `W`)
in-range taps `max 0 (i - (W - (W-1)/2 - 1)) .. min (i + (W-1)/2) (T-1)`,
with denominator `W`. -/
def convSame (T W : ℕ) (x : ℕ → ℝ) (i : ℕ) : ℝ :=
  (∑ j in Finset.Icc (i + (W - 1) / 2 + 1 - W) (min (i + (W - 1) / 2) (T - 1)), x j) / W

/-- The edge-correction factor of `_moving_average_filter`: index `0` is
rescaled by `W / n_conv`, indices `1 .. n_conv-1` by `W / (i + n_conv)`,
and indices `T-1 .. T-(n_conv-1)` (numpy's `-1 .. -(n_conv-1)`) by
`W / ((T-i) + n_conv - W % 2)`; all other indices are untouched.  (For
`2 * n_conv ≤ T` the three index sets are disjoint, as they are for every
call the program makes.) -/
def mafCorr (T W : ℕ) (i : ℕ) : ℝ :=
  if i = 0 then (W : ℝ) / (n_conv W : ℕ)
  else if i < n_conv W then (W : ℝ) / ((i + n_conv W : ℕ) : ℝ)
  else if T - n_conv W < i ∧ i < T then (W : ℝ) / (((T - i) + n_conv W - W % 2 : ℕ) : ℝ)
  else 1

/-- `_moving_average_filter` on one control dimension: the `"same"`
convolution followed by the edge rescaling. -/
def maf (T W : ℕ) (x : ℕ → ℝ) (i : ℕ) : ℝ := convSame T W x i * mafCorr T W i

/-- The perturbed control `v[k, t]` before saturation: warm-started control
plus noise for the first `(1 - param_exploration) * K` samples
(exploitation), bare noise for the rest (exploration). -/
def perturbed_control (p : MPPIParams) (uprev : ℕ → Control) (eps : ℕ → ℕ → Control)
    (k t : ℕ) : Control :=
  if (k : ℝ) < (1 - p.param_exploration) * (p.K : ℝ) then
    ⟨(uprev t).v + (eps k t).v, (uprev t).w + (eps k t).w⟩
  else eps k t

/-- `v[k, t]` after `_g`: the source applies `_g` to the row `v[k, t-1]`
in place, so both the dynamics step and the control-cost bonus term read the
saturated value. -/
def v_clipped (p : MPPIParams) (uprev : ℕ → Control) (eps : ℕ → ℕ → Control)
    (k t : ℕ) : Control :=
  g_limit p (perturbed_control p uprev eps k t)

/-- Iterating `_F` from an initial state under a control sequence:
`rollout … t` is the state after `t` kinematic steps. -/
def rollout (p : MPPIParams) (x0 : State) (ctrl : ℕ → Control) : ℕ → State
  | 0 => x0
  | t + 1 => F_dyn p (rollout p x0 ctrl t) (ctrl t)

/-- `self.Sigma` read as the 2×2 covariance used by the quadratic cost term. -/
def sigmaMatrix (p : MPPIParams) : Matrix (Fin 2) (Fin 2) ℝ :=
  fun i j => p.sigma (i : ℕ) (j : ℕ)

/-- `a.T @ A @ b` for 2-vectors. -/
def quad_form (A : Matrix (Fin 2) (Fin 2) ℝ) (a b : Control) : ℝ :=
  a.v * (A 0 0 * b.v + A 0 1 * b.w) + a.w * (A 1 0 * b.v + A 1 1 * b.w)

/-- `S[k]`: the accumulated sample cost of the rollout loop — for
`t = 1 .. T` the stage cost at the new state plus
`param_gamma * u[t-1].T @ inv(Sigma) @ v[k, t-1]`, and after the horizon the
terminal cost at the final state.  Mathlib's matrix inverse is total where
`np.linalg.inv` raises on a singular matrix: `calc_control_input` guards
every use of this definition behind its singular-`Sigma` branch (the
`LinAlgError` numpy raises before any weight is consumed), so the junk
value of `(sigmaMatrix p)⁻¹` at `det = 0` is never observable. -/
def sample_cost (p : MPPIParams) (uprev : ℕ → Control) (eps : ℕ → ℕ → Control)
    (x0 : State) (k : ℕ) : ℝ :=
  (∑ t in Finset.range p.T,
      (stage_cost p (rollout p x0 (v_clipped p uprev eps k) (t + 1))
        + p.param_gamma * quad_form (sigmaMatrix p)⁻¹ (uprev t) (v_clipped p uprev eps k t)))
    + terminal_cost p (rollout p x0 (v_clipped p uprev eps k) p.T)

/-- `w_epsilon[t] = Σ_k w[k] * epsilon[k, t]` (the raw, unsaturated noise). -/
def w_epsilon (p : MPPIParams) (uprev : ℕ → Control) (eps : ℕ → ℕ → Control)
    (x0 : State) (t : ℕ) : Control :=
  ⟨∑ k : Fin p.K,
      compute_weights p.param_lambda (fun j : Fin p.K => sample_cost p uprev eps x0 (j : ℕ)) k
        * (eps (k : ℕ) t).v,
   ∑ k : Fin p.K,
      compute_weights p.param_lambda (fun j : Fin p.K => sample_cost p uprev eps x0 (j : ℕ)) k
        * (eps (k : ℕ) t).w⟩

/-- `_moving_average_filter(xx=w_epsilon, window_size=10)` applied
independently to the two control dimensions. -/
def smooth (T : ℕ) (xs : ℕ → Control) (t : ℕ) : Control :=
  ⟨maf T 10 (fun s => (xs s).v) t, maf T 10 (fun s => (xs s).w) t⟩

/-- `u += w_epsilon`: the updated control sequence of step 6 of the spec
(warm start plus smoothed weighted perturbation). -/
def updated_u (p : MPPIParams) (uprev : ℕ → Control) (eps : ℕ → ℕ → Control)
    (x0 : State) (t : ℕ) : Control :=
  ⟨(uprev t).v + (smooth p.T (w_epsilon p uprev eps x0) t).v,
   (uprev t).w + (smooth p.T (w_epsilon p uprev eps x0) t).w⟩

/-- The buffer contents after the optional optimal-trajectory pass: when
`visualize_optimal_traj` is set, the source calls `self._g(u[t])`, which
clips the rows of `u` in place, so the sequence itself becomes saturated as
a side effect; otherwise it is untouched. -/
def u_after_viz (p : MPPIParams) (uprev : ℕ → Control) (eps : ℕ → ℕ → Control)
    (x0 : State) (t : ℕ) : Control :=
  if p.visualize_optimal_traj then g_limit p (updated_u p uprev eps x0 t)
  else updated_u p uprev eps x0 t

/-- The in-place warm-start shift `u_prev[:-1] = u[1:]; u_prev[-1] = u[-1]`
(numpy buffers the overlapping copy, so this is a true left shift with the
last entry duplicated). -/
def shift_seq (T : ℕ) (s : ℕ → Control) (t : ℕ) : Control :=
  if t + 1 < T then s (t + 1) else s (T - 1)

/-- What one call to `calc_control_input` hands back: the action, the full
sequence, the two optional trajectory outputs, and (explicit state passing
of `self.u_prev`) the buffer contents for the next call.  Because `u`
aliases `self.u_prev` in the source, all of `action`, `sequence` and
`u_prev_next` are read from the one buffer after the shift. -/
structure CalcResult where
  action : Control
  sequence : ℕ → Control
  optimal_traj : ℕ → State
  sampled_traj_list : ℕ → ℕ → State
  u_prev_next : ℕ → Control

/-- The value a non-raising call to `calc_control_input` hands back.  The
trajectory buffers stay all-zero when their flags are off, as in the source. -/
def calc_result (p : MPPIParams) (uprev : ℕ → Control) (x0 : State)
    (eps : ℕ → ℕ → Control) : CalcResult :=
  { action := shift_seq p.T (u_after_viz p uprev eps x0) 0
    sequence := shift_seq p.T (u_after_viz p uprev eps x0)
    optimal_traj := fun t =>
      if p.visualize_optimal_traj then
        rollout p x0 (fun s => g_limit p (updated_u p uprev eps x0 s)) (t + 1)
      else ⟨0, 0, 0⟩
    sampled_traj_list := fun k t =>
      if p.visualze_sampled_trajs then
        rollout p x0 (v_clipped p uprev eps k) (t + 1)
      else ⟨0, 0, 0⟩
    u_prev_next := shift_seq p.T (u_after_viz p uprev eps x0) }

/-- `calc_control_input(observed_x)`.  The fallible steps, in the order the
interpreter reaches them:

1. `_calc_epsilon`'s shape check on `self.Sigma` raises `ValueError` first
   (`np.random.multivariate_normal` itself only warns on a non-PSD matrix,
   it does not raise);
2. the first iteration of the rollout loop evaluates
   `np.linalg.inv(self.Sigma)` eagerly (even when `param_gamma = 0`), which
   raises `LinAlgError` on a singular matrix — reached only when the loops
   run, i.e. `K ≥ 1` and `T ≥ 1`;
3. with `K = 0` the loop is skipped (so the inverse is never taken) and
   `_compute_weights` raises `ValueError` at `S.min()` on the empty array;
4. with `T < 10` the moving-average filter raises `ValueError`
   (`np.convolve` on an empty signal for `T = 0`, otherwise the length-10
   `"same"` output cannot be assigned into the length-`T` buffer).

Everything past these checks is the pure pipeline above.  A square,
invertible but non-positive-definite `Sigma` is never rejected anywhere. -/
def calc_control_input (p : MPPIParams) (uprev : ℕ → Control) (x0 : State)
    (eps : ℕ → ℕ → Control) : Except String CalcResult :=
  if p.sigma_rows = p.sigma_cols ∧ p.sigma_rows = p.dim_u ∧ 1 ≤ p.dim_u then
    if 1 ≤ p.K ∧ 1 ≤ p.T ∧ (sigmaMatrix p).det = 0 then
      Except.error (r"Singular matrix")
    else if p.K = 0 then
      Except.error (r"zero-size array to reduction operation minimum which has no identity")
    else if p.T < 10 then
      Except.error (r"moving average filter: could not broadcast input array")
    else
      Except.ok (calc_result p uprev x0 eps)
  else Except.error (r"sigma must be a square matrix with the size of size_dim_u.")

/-- `_affine_transform`: rotate each point by `angle`, translate by
`(tx, ty)`, and close the polygon by appending the first transformed point. -/
def affine_transform (pts : List (ℝ × ℝ)) (angle tx ty : ℝ) : List (ℝ × ℝ) :=
  let tr := pts.map fun q =>
    (q.1 * Real.cos angle - q.2 * Real.sin angle + tx,
     q.1 * Real.sin angle + q.2 * Real.cos angle + ty)
  tr ++ tr.take 1

/-- The footprint boundary sample points of `_is_collided` (before the
closing duplicate), for scaled half-extents `0.5*vl`, `0.5*vw`. -/
def robot_shape_pts (vl vw : ℝ) : List (ℝ × ℝ) :=
  [(-(0.5 * vl), 0), (-(0.5 * vl), 0.5 * vw), (0, 0.5 * vw), (0.5 * vl, 0.5 * vw),
   (0.5 * vl, 0), (0.5 * vl, -(0.5 * vw)), (0, -(0.5 * vw)), (-(0.5 * vl), -(0.5 * vw)),
   (-(0.5 * vl), 0)]

/-- `_is_collided`: scale the footprint by the safety margin, transform the
boundary sample points to the pose, and report whether any of them lies
strictly inside any obstacle circle. -/
def is_collided (p : MPPIParams) (s : State) : Bool :=
  let vw := p.robot_w * p.collision_safety_margin_rate
  let vl := p.robot_l * p.collision_safety_margin_rate
  let pts := affine_transform (robot_shape_pts vl vw) s.yaw s.x s.y
  p.obstacle_circles.any fun obs =>
    pts.any fun q =>
      decide ((q.1 - obs.1) ^ 2 + (q.2 - obs.2.1) ^ 2 < obs.2.2 ^ 2)

/-! ### Helper lemmas -/

lemma sum_exp_pos {K : ℕ} (hK : 0 < K) (f : Fin K → ℝ) :
    0 < ∑ j, Real.exp (f j) := by
  have : Nonempty (Fin K) := Fin.pos_iff_nonempty.mp hK
  exact Finset.sum_pos (fun j _ => Real.exp_pos _) Finset.univ_nonempty

lemma rho_fin_one (S : Fin 1 → ℝ) : rho S = S 0 := by
  unfold rho
  rw [Set.range_unique]
  exact csInf_singleton _

/-- With a single sample the importance weight is `1`, whatever the cost. -/
lemma compute_weights_fin_one (lam : ℝ) (S : Fin 1 → ℝ) (k : Fin 1) :
    compute_weights lam S k = 1 := by
  have h0 : k = 0 := Subsingleton.elim _ _
  unfold compute_weights
  rw [rho_fin_one]
  simp [h0, Fin.sum_univ_one]

lemma maf_zero_fun (T W : ℕ) (x : ℕ → ℝ) (h : ∀ j, x j = 0) (i : ℕ) :
    maf T W x i = 0 := by
  unfold maf convSame
  rw [Finset.sum_eq_zero fun j _ => h j]
  simp

lemma maf_congr_fun (T W : ℕ) (x y : ℕ → ℝ) (h : ∀ j, x j = y j) (i : ℕ) :
    maf T W x i = maf T W y i := by
  unfold maf convSame
  rw [Finset.sum_congr rfl fun j _ => h j]

/-- The edge-corrected window-10 moving average maps a constant signal to
itself at every in-range index, provided the signal is at least as long as
the window. -/
lemma maf_const_ten (T : ℕ) (hT : 10 ≤ T) (c : ℝ) (t : ℕ) (ht : t < T) :
    maf T 10 (fun _ => c) t = c := by
  have hcard : ∀ a b : ℕ, (∑ j in Finset.Icc a b, (fun _ : ℕ => c) j) = ((b + 1 - a : ℕ) : ℝ) * c := by
    intro a b
    rw [Finset.sum_const, Nat.card_Icc, nsmul_eq_mul]
  unfold maf convSame mafCorr n_conv
  simp only [show ((10 : ℕ) - 1) / 2 = 4 from rfl, show ((10 : ℕ) + 1) / 2 = 5 from rfl,
    show (10 : ℕ) % 2 = 0 from rfl, Nat.sub_zero]
  rcases Nat.eq_zero_or_pos t with h0 | h0
  · subst h0
    rw [if_pos rfl, show (0 + 4 + 1 - 10 : ℕ) = 0 from rfl,
      show min (0 + 4) (T - 1) = 4 by omega, hcard]
    norm_num
    ring
  · by_cases h5 : t < 5
    · rw [if_neg (by omega), if_pos h5, show t + 4 + 1 - 10 = 0 by omega,
        show min (t + 4) (T - 1) = t + 4 by omega, hcard,
        show t + 4 + 1 - 0 = t + 5 by omega]
      have hne : ((t + 5 : ℕ) : ℝ) ≠ 0 := Nat.cast_ne_zero.mpr (by omega)
      field_simp
    · by_cases hb : T - 5 < t
      · rw [if_neg (by omega), if_neg h5, if_pos ⟨hb, ht⟩,
          show t + 4 + 1 - 10 = t - 5 by omega, show min (t + 4) (T - 1) = T - 1 by omega, hcard,
          show T - 1 + 1 - (t - 5) = T - t + 5 by omega]
        have hne : ((T - t + 5 : ℕ) : ℝ) ≠ 0 := Nat.cast_ne_zero.mpr (by omega)
        field_simp
      · rw [if_neg (by omega), if_neg h5, if_neg (by omega),
          show t + 4 + 1 - 10 = t - 5 by omega, show min (t + 4) (T - 1) = t + 4 by omega, hcard,
          show t + 4 + 1 - (t - 5) = 10 by omega]
        norm_num

lemma pymod_nonneg (a m : ℝ) (hm : 0 < m) : 0 ≤ pymod a m := by
  unfold pymod
  have h1 : (⌊a / m⌋ : ℝ) ≤ a / m := Int.floor_le (a / m)
  have h2 : m * (a / m) = a := by field_simp
  nlinarith

lemma pymod_lt (a m : ℝ) (hm : 0 < m) : pymod a m < m := by
  unfold pymod
  have h1 : a / m < (⌊a / m⌋ : ℝ) + 1 := Int.lt_floor_add_one (a / m)
  have h2 : m * (a / m) = a := by field_simp
  nlinarith

lemma yawError_mem (yaw gyaw : ℝ) :
    -Real.pi ≤ yawError yaw gyaw ∧ yawError yaw gyaw < Real.pi := by
  have h2 : (0 : ℝ) < 2 * Real.pi := by positivity
  have hlo := pymod_nonneg (yaw - gyaw + Real.pi) (2 * Real.pi) h2
  have hhi := pymod_lt (yaw - gyaw + Real.pi) (2 * Real.pi) h2
  unfold yawError
  constructor <;> linarith

lemma yawError_three_pi : yawError (3 * Real.pi) 0 = -Real.pi := by
  unfold yawError pymod
  have h4 : (3 * Real.pi - 0 + Real.pi) / (2 * Real.pi) = 2 := by
    field_simp
    ring
  rw [h4]
  norm_num
  ring

/-! ### Claim theorems -/

/-- C4: for every non-empty cost vector `S`, the weight vector produced by
`_compute_weights` is entrywise non-negative and sums to 1 (over exact real
arithmetic). -/
theorem compute_weights_nonneg_sum_one {K : ℕ} (hK : 0 < K) (lam : ℝ) (S : Fin K → ℝ) :
    (∀ k, 0 ≤ compute_weights lam S k) ∧ ∑ k, compute_weights lam S k = 1 := by
  have hpos : 0 < ∑ j, Real.exp (-1 / lam * (S j - rho S)) := sum_exp_pos hK _
  constructor
  · intro k
    exact mul_nonneg (by positivity) (Real.exp_pos _).le
  · unfold compute_weights
    rw [← Finset.mul_sum, one_div, inv_mul_cancel₀ hpos.ne']

/-- Witness for C4 at `K = 1`, `λ = 1`, `S = [0]`. -/
theorem compute_weights_nonneg_sum_one_witness :
    (∀ k, 0 ≤ compute_weights 1 (fun _ : Fin 1 => (0 : ℝ)) k) ∧
      ∑ k, compute_weights 1 (fun _ : Fin 1 => (0 : ℝ)) k = 1 :=
  compute_weights_nonneg_sum_one (by norm_num) 1 (fun _ => 0)

/-- The weighting as §4.2 of the spec words it WITHOUT the ρ-shift:
`exp(-(1/λ)·S[k])` normalized by the sum over the samples. -/
def compute_weights_unshifted (lam : ℝ) {K : ℕ} (S : Fin K → ℝ) (k : Fin K) : ℝ :=
  Real.exp (-1 / lam * S k) / ∑ j, Real.exp (-1 / lam * S j)

/-- C5: the ρ-shifted weighting computed by `_compute_weights` equals the
unshifted formula exactly, for any cost vector and `λ > 0`: the shift is
pure numerical stabilization. -/
theorem compute_weights_eq_unshifted {K : ℕ} (hK : 0 < K) (lam : ℝ) (hlam : 0 < lam)
    (S : Fin K → ℝ) : compute_weights lam S = compute_weights_unshifted lam S := by
  funext k
  have hfac : ∀ j : Fin K, Real.exp (-1 / lam * (S j - rho S))
      = Real.exp (-1 / lam * S j) * Real.exp (1 / lam * rho S) := by
    intro j
    rw [← Real.exp_add]
    congr 1
    ring
  have hden : 0 < ∑ j, Real.exp (-1 / lam * S j) := sum_exp_pos hK _
  have hexp : (0 : ℝ) < Real.exp (1 / lam * rho S) := Real.exp_pos _
  have key : ∀ D c N : ℝ, D ≠ 0 → c ≠ 0 → 1 / (D * c) * (N * c) = N / D := by
    intro D c N hD hc
    field_simp
    ring
  unfold compute_weights compute_weights_unshifted
  simp only [hfac]
  rw [← Finset.sum_mul]
  exact key _ _ _ hden.ne' hexp.ne'

/-- Witness for C5 at `K = 1`, `λ = 1`, `S = [2]`. -/
theorem compute_weights_eq_unshifted_witness :
    compute_weights 1 (fun _ : Fin 1 => (2 : ℝ))
      = compute_weights_unshifted 1 (fun _ : Fin 1 => (2 : ℝ)) :=
  compute_weights_eq_unshifted (by norm_num) 1 (by norm_num) _

/-- C6 counterexample: the heading error of `_c`/`_phi` at rollout heading
`3π` and goal heading `0` is `-π`, not the `π` the claim asserts (the wrap
lands in `[-π, π)`, not `(-π, π]`). -/
theorem yawError_at_three_pi_ne_pi :
    yawError (3 * Real.pi) 0 = -Real.pi ∧ yawError (3 * Real.pi) 0 ≠ Real.pi := by
  refine ⟨yawError_three_pi, ?_⟩
  rw [yawError_three_pi]
  have h := Real.pi_pos
  intro hc
  linarith

/-- C6 amended: the heading error used by the stage and terminal costs is
wrapped to the half-open interval `[-π, π)` (closed on the left), and at
goal heading `0`, rollout heading `3π` it equals `-π` — the same squared
cost as `π`, but the opposite endpoint of the claimed interval. -/
theorem yawError_wrapped_interval :
    (∀ yaw gyaw : ℝ, -Real.pi ≤ yawError yaw gyaw ∧ yawError yaw gyaw < Real.pi) ∧
      yawError (3 * Real.pi) 0 = -Real.pi :=
  ⟨fun yaw gyaw => yawError_mem yaw gyaw, yawError_three_pi⟩

/-- C8: the moving-average smoothing of `calc_control_input` (window 10,
with the edge rescaling by the number of in-range taps) maps a constant
perturbation sequence to itself at every horizon index, whenever the
horizon is at least the window length (for `T < 10` numpy's `"same"`
convolution no longer matches the buffer length and the source raises). -/
theorem smooth_const_identity (T : ℕ) (hT : 10 ≤ T) (c : Control) (t : ℕ) (ht : t < T) :
    smooth T (fun _ => c) t = c := by
  unfold smooth
  cases c with
  | mk v w => simp [maf_const_ten T hT _ t ht]

/-- Witness for C8 at `T = 10`, `c = (1, 2)`, `t = 0`. -/
theorem smooth_const_identity_witness :
    smooth 10 (fun _ => (⟨1, 2⟩ : Control)) 0 = ⟨1, 2⟩ :=
  smooth_const_identity 10 (by norm_num) ⟨1, 2⟩ 0 (by norm_num)

/-! ### A concrete configuration for evaluating `calc_control_input`

`T = 10`, `K = 1`, exploration `0`, `λ = 1`, `α = 1`, identity-shaped 2×2
sigma, both visualization flags off (their constructor defaults): with a
single sample the importance weight is exactly `1`, so the weighted
perturbation equals the supplied noise and the whole call can be evaluated
in closed form. -/

/-- Concrete solver configuration (valid covariance shape, `T = 10`, `K = 1`). -/
def cParams : MPPIParams :=
  mppi_init 0.1 0.5 0.6 0.8 2 2 ⟨15, 5, 0⟩ 10 1 0 1 1 2 2
    (fun i j => if i = j then 1 else 0) (50, 50, 1) (50, 50, 1) false false [] 1.2

/-- A warm-start buffer whose entries differ step by step: `u_prev[t] = (t, 0)`. -/
def uprev_ramp : ℕ → Control := fun t => ⟨(t : ℝ), 0⟩

/-- The all-zero warm-start buffer (the state `__init__` leaves behind). -/
def uprev_zero : ℕ → Control := fun _ => ⟨0, 0⟩

/-- The all-zero noise draw. -/
def eps_zero : ℕ → ℕ → Control := fun _ _ => ⟨0, 0⟩

/-- A constant large noise draw: every perturbation is `(100, 0)`. -/
def eps_big : ℕ → ℕ → Control := fun _ _ => ⟨100, 0⟩

lemma w_epsilon_eps_zero (p : MPPIParams) (uprev : ℕ → Control) (x0 : State) (t : ℕ) :
    w_epsilon p uprev eps_zero x0 t = ⟨0, 0⟩ := by
  unfold w_epsilon eps_zero
  simp

lemma w_epsilon_K_one (p : MPPIParams) (hK : p.K = 1) (uprev : ℕ → Control)
    (eps : ℕ → ℕ → Control) (x0 : State) (t : ℕ) :
    w_epsilon p uprev eps x0 t = ⟨(eps 0 t).v, (eps 0 t).w⟩ := by
  obtain ⟨du, dt, wb, rw', rl, mlv, mav, gl, T, K, pe, pl, pa, pg, sr, sc, sg, scw, tcw,
    v1, v2, oc, cm⟩ := p
  simp only at hK
  subst hK
  unfold w_epsilon
  simp [Fin.sum_univ_one, compute_weights_fin_one]

lemma updated_u_eps_zero (p : MPPIParams) (uprev : ℕ → Control) (x0 : State) (t : ℕ) :
    updated_u p uprev eps_zero x0 t = uprev t := by
  have hv : ∀ j, (fun s => (w_epsilon p uprev eps_zero x0 s).v) j = (fun _ : ℕ => (0 : ℝ)) j := by
    intro j
    show (w_epsilon p uprev eps_zero x0 j).v = 0
    rw [w_epsilon_eps_zero]
  have hw : ∀ j, (fun s => (w_epsilon p uprev eps_zero x0 s).w) j = (fun _ : ℕ => (0 : ℝ)) j := by
    intro j
    show (w_epsilon p uprev eps_zero x0 j).w = 0
    rw [w_epsilon_eps_zero]
  unfold updated_u smooth
  rw [maf_congr_fun _ _ _ _ hv t, maf_congr_fun _ _ _ _ hw t,
    maf_zero_fun _ _ _ (fun _ => rfl) t]
  simp

lemma smooth_w_eps_big (uprev : ℕ → Control) (x0 : State) (t : ℕ) (ht : t < 10) :
    smooth cParams.T (w_epsilon cParams uprev eps_big x0) t = ⟨100, 0⟩ := by
  have hv : ∀ j, (fun s => (w_epsilon cParams uprev eps_big x0 s).v) j
      = (fun _ : ℕ => (100 : ℝ)) j := by
    intro j
    show (w_epsilon cParams uprev eps_big x0 j).v = 100
    rw [w_epsilon_K_one cParams rfl]
    rfl
  have hw : ∀ j, (fun s => (w_epsilon cParams uprev eps_big x0 s).w) j
      = (fun _ : ℕ => (0 : ℝ)) j := by
    intro j
    show (w_epsilon cParams uprev eps_big x0 j).w = 0
    rw [w_epsilon_K_one cParams rfl]
    rfl
  unfold smooth
  rw [maf_congr_fun _ _ _ _ hv t, maf_congr_fun _ _ _ _ hw t,
    show cParams.T = 10 from rfl,
    maf_const_ten 10 (by norm_num) 100 t ht, maf_const_ten 10 (by norm_num) 0 t ht]

lemma updated_u_eps_big (uprev : ℕ → Control) (x0 : State) (t : ℕ) (ht : t < 10) :
    updated_u cParams uprev eps_big x0 t = ⟨(uprev t).v + 100, (uprev t).w + 0⟩ := by
  unfold updated_u
  rw [smooth_w_eps_big uprev x0 t ht]

lemma cParams_det : (sigmaMatrix cParams).det = 1 := by
  rw [Matrix.det_fin_two]
  norm_num [sigmaMatrix, cParams, mppi_init]

/-- The concrete configuration passes every runtime check (`2×2` sigma of
determinant `1`, `K = 1`, `T = 10`), so the call succeeds. -/
lemma calc_cParams_eq (uprev : ℕ → Control) (x0 : State) (eps : ℕ → ℕ → Control) :
    calc_control_input cParams uprev x0 eps
      = Except.ok (calc_result cParams uprev x0 eps) := by
  unfold calc_control_input
  rw [if_pos ⟨rfl, rfl, by decide⟩,
    if_neg (fun h => absurd (cParams_det.symm.trans h.2.2) one_ne_zero),
    if_neg (show ¬ cParams.K = 0 by decide),
    if_neg (show ¬ cParams.T < 10 by decide)]

/-- C1 (code bug): because `u = self.u_prev` aliases the warm-start buffer
and the left-shift mutates that buffer in place before the `return`, both
the returned action and the returned sequence are read from the
already-shifted buffer: the action is entry `1` of the step-6 updated
sequence, not its entry `0`.  Here the step-6 updated sequence is
`u[t] = (t, 0)` (zero noise on a ramp warm start), so the call returns
action `(1, 0)` and `sequence[0] = (1, 0)`, while step 6's `u[0]` is
`(0, 0)`. -/
theorem calc_returns_post_shift_action :
    (calc_control_input cParams uprev_ramp ⟨0, 0, 0⟩ eps_zero).map (fun r => r.action)
        = Except.ok ⟨1, 0⟩ ∧
      (calc_control_input cParams uprev_ramp ⟨0, 0, 0⟩ eps_zero).map (fun r => r.sequence 0)
        = Except.ok ⟨1, 0⟩ ∧
      updated_u cParams uprev_ramp eps_zero ⟨0, 0, 0⟩ 0 = ⟨0, 0⟩ ∧
      updated_u cParams uprev_ramp eps_zero ⟨0, 0, 0⟩ 1 = ⟨1, 0⟩ ∧
      (⟨1, 0⟩ : Control) ≠ (⟨0, 0⟩ : Control) := by
  have hcalc : ∀ t, t + 1 < 10 →
      shift_seq cParams.T (u_after_viz cParams uprev_ramp eps_zero ⟨0, 0, 0⟩) t
        = updated_u cParams uprev_ramp eps_zero ⟨0, 0, 0⟩ (t + 1) := by
    intro t ht
    unfold shift_seq u_after_viz
    rw [if_pos (show t + 1 < cParams.T from ht)]
    rfl
  refine ⟨?_, ?_, ?_, ?_, ?_⟩
  · rw [calc_cParams_eq]
    simp only [Except.map, calc_result]
    rw [hcalc 0 (by norm_num), updated_u_eps_zero]
    norm_num [uprev_ramp]
  · rw [calc_cParams_eq]
    simp only [Except.map, calc_result]
    rw [hcalc 0 (by norm_num), updated_u_eps_zero]
    norm_num [uprev_ramp]
  · rw [updated_u_eps_zero]
    norm_num [uprev_ramp]
  · rw [updated_u_eps_zero]
    norm_num [uprev_ramp]
  · intro h
    have := congrArg Control.v h
    norm_num at this

/-- C3 (code bug): the warm-start buffer, the returned sequence and the
returned action are all the same in-place-shifted object, so after the call
the stored entries equal the RETURNED entries one for one — the stored
buffer is the step-6 sequence shifted left, but it is not the returned
sequence shifted left, as the claim states.  With step-6 sequence
`u[t] = (t, 0)`: stored entry `0` is `(1, 0)`, the returned entry `0` is
also `(1, 0)`, and the returned entry `1` is `(2, 0) ≠ (1, 0)`. -/
theorem warm_start_buffer_equals_returned_sequence :
    (calc_control_input cParams uprev_ramp ⟨0, 0, 0⟩ eps_zero).map
        (fun r => (r.u_prev_next 0, r.sequence 0, r.sequence 1))
      = Except.ok (⟨1, 0⟩, ⟨1, 0⟩, ⟨2, 0⟩) ∧
      (⟨1, 0⟩ : Control) ≠ (⟨2, 0⟩ : Control) := by
  have hcalc : ∀ t, t + 1 < 10 →
      shift_seq cParams.T (u_after_viz cParams uprev_ramp eps_zero ⟨0, 0, 0⟩) t
        = updated_u cParams uprev_ramp eps_zero ⟨0, 0, 0⟩ (t + 1) := by
    intro t ht
    unfold shift_seq u_after_viz
    rw [if_pos (show t + 1 < cParams.T from ht)]
    rfl
  constructor
  · rw [calc_cParams_eq]
    simp only [Except.map, calc_result]
    rw [hcalc 0 (by norm_num), hcalc 1 (by norm_num), updated_u_eps_zero, updated_u_eps_zero]
    norm_num [uprev_ramp]
  · intro h
    have := congrArg Control.v h
    norm_num at this

/-- C2 counterexample: with the default (off) visualization flags nothing
saturates the updated sequence, so the returned action can exceed the
configured limits: zero warm start, constant noise `(100, 0)`, a single
sample (weight 1) and smoothing that is the identity on constants give the
returned action `(100, 0)`, far outside `max_linear_vel = 2`. -/
theorem returned_action_exceeds_limits :
    (calc_control_input cParams uprev_zero ⟨0, 0, 0⟩ eps_big).map (fun r => r.action)
        = Except.ok ⟨100, 0⟩ ∧
      cParams.max_linear_vel = 2 ∧
      ¬ (⟨100, 0⟩ : Control).v ≤ cParams.max_linear_vel := by
  have hcalc : shift_seq cParams.T (u_after_viz cParams uprev_zero eps_big ⟨0, 0, 0⟩) 0
      = updated_u cParams uprev_zero eps_big ⟨0, 0, 0⟩ 1 := by
    unfold shift_seq u_after_viz
    rw [if_pos (show 0 + 1 < cParams.T by decide)]
    rfl
  refine ⟨?_, rfl, ?_⟩
  · rw [calc_cParams_eq]
    simp only [Except.map, calc_result]
    rw [hcalc, updated_u_eps_big uprev_zero ⟨0, 0, 0⟩ 1 (by norm_num)]
    norm_num [uprev_zero]
  · rw [show cParams.max_linear_vel = 2 from rfl]
    norm_num

/-- C2 amended: the saturation `_g` is applied to every sampled perturbed
control before it is used in a rollout, so those controls respect the
configured limits; it is the returned action (the unsaturated updated
sequence, when `visualize_optimal_traj` is off) that the claim wrongly
asserts to be saturated. -/
theorem sampled_controls_within_limits (p : MPPIParams) (uprev : ℕ → Control)
    (eps : ℕ → ℕ → Control) (k t : ℕ)
    (hv : 0 ≤ p.max_linear_vel) (hw : 0 ≤ p.max_angular_vel) :
    -p.max_linear_vel ≤ (v_clipped p uprev eps k t).v ∧
      (v_clipped p uprev eps k t).v ≤ p.max_linear_vel ∧
      -p.max_angular_vel ≤ (v_clipped p uprev eps k t).w ∧
      (v_clipped p uprev eps k t).w ≤ p.max_angular_vel := by
  have h1 : ∀ x a : ℝ, 0 ≤ a → -a ≤ npclip x (-a) a ∧ npclip x (-a) a ≤ a := by
    intro x a ha
    unfold npclip
    exact ⟨le_min (le_max_right x (-a)) (by linarith), min_le_right _ _⟩
  unfold v_clipped g_limit
  exact ⟨(h1 _ _ hv).1, (h1 _ _ hv).2, (h1 _ _ hw).1, (h1 _ _ hw).2⟩

/-- Witness for the amended C2 at the concrete configuration and inputs. -/
theorem sampled_controls_within_limits_witness :
    -cParams.max_linear_vel ≤ (v_clipped cParams uprev_zero eps_big 0 0).v ∧
      (v_clipped cParams uprev_zero eps_big 0 0).v ≤ cParams.max_linear_vel ∧
      -cParams.max_angular_vel ≤ (v_clipped cParams uprev_zero eps_big 0 0).w ∧
      (v_clipped cParams uprev_zero eps_big 0 0).w ≤ cParams.max_angular_vel :=
  sampled_controls_within_limits cParams uprev_zero eps_big 0 0
    (by rw [show cParams.max_linear_vel = 2 from rfl]; norm_num)
    (by rw [show cParams.max_angular_vel = 2 from rfl]; norm_num)

lemma rollout_upd (p : MPPIParams) (O : List (ℝ × ℝ × ℝ)) (m : ℝ) (x0 : State)
    (ctrl : ℕ → Control) (t : ℕ) :
    rollout { p with obstacle_circles := O, collision_safety_margin_rate := m } x0 ctrl t
      = rollout p x0 ctrl t := by
  induction t with
  | zero => rfl
  | succ t ih =>
    unfold rollout
    rw [ih]
    rfl

lemma sample_cost_upd (p : MPPIParams) (O : List (ℝ × ℝ × ℝ)) (m : ℝ)
    (uprev : ℕ → Control) (eps : ℕ → ℕ → Control) (x0 : State) (k : ℕ) :
    sample_cost { p with obstacle_circles := O, collision_safety_margin_rate := m } uprev eps x0 k
      = sample_cost p uprev eps x0 k := by
  unfold sample_cost
  simp only [rollout_upd]
  rfl

lemma w_epsilon_upd (p : MPPIParams) (O : List (ℝ × ℝ × ℝ)) (m : ℝ)
    (uprev : ℕ → Control) (eps : ℕ → ℕ → Control) (x0 : State) (t : ℕ) :
    w_epsilon { p with obstacle_circles := O, collision_safety_margin_rate := m } uprev eps x0 t
      = w_epsilon p uprev eps x0 t := by
  unfold w_epsilon
  simp only [sample_cost_upd]

lemma updated_u_upd (p : MPPIParams) (O : List (ℝ × ℝ × ℝ)) (m : ℝ)
    (uprev : ℕ → Control) (eps : ℕ → ℕ → Control) (x0 : State) (t : ℕ) :
    updated_u { p with obstacle_circles := O, collision_safety_margin_rate := m } uprev eps x0 t
      = updated_u p uprev eps x0 t := by
  have hv : ∀ j, (fun s =>
      (w_epsilon { p with obstacle_circles := O, collision_safety_margin_rate := m }
        uprev eps x0 s).v) j = (fun s => (w_epsilon p uprev eps x0 s).v) j := by
    intro j
    show (w_epsilon _ uprev eps x0 j).v = (w_epsilon p uprev eps x0 j).v
    rw [w_epsilon_upd]
  have hw : ∀ j, (fun s =>
      (w_epsilon { p with obstacle_circles := O, collision_safety_margin_rate := m }
        uprev eps x0 s).w) j = (fun s => (w_epsilon p uprev eps x0 s).w) j := by
    intro j
    show (w_epsilon _ uprev eps x0 j).w = (w_epsilon p uprev eps x0 j).w
    rw [w_epsilon_upd]
  unfold updated_u smooth
  rw [maf_congr_fun _ _ _ _ hv t, maf_congr_fun _ _ _ _ hw t]

lemma u_after_viz_upd (p : MPPIParams) (O : List (ℝ × ℝ × ℝ)) (m : ℝ)
    (uprev : ℕ → Control) (eps : ℕ → ℕ → Control) (x0 : State) (t : ℕ) :
    u_after_viz { p with obstacle_circles := O, collision_safety_margin_rate := m } uprev eps x0 t
      = u_after_viz p uprev eps x0 t := by
  unfold u_after_viz
  simp only [updated_u_upd]
  rfl

lemma calc_result_upd (p : MPPIParams) (O : List (ℝ × ℝ × ℝ)) (m : ℝ)
    (uprev : ℕ → Control) (x0 : State) (eps : ℕ → ℕ → Control) :
    calc_result { p with obstacle_circles := O, collision_safety_margin_rate := m } uprev x0 eps
      = calc_result p uprev x0 eps := by
  have hu : u_after_viz { p with obstacle_circles := O, collision_safety_margin_rate := m }
      uprev eps x0 = u_after_viz p uprev eps x0 :=
    funext (u_after_viz_upd p O m uprev eps x0)
  have hg : (fun s => g_limit { p with obstacle_circles := O, collision_safety_margin_rate := m }
        (updated_u { p with obstacle_circles := O, collision_safety_margin_rate := m }
          uprev eps x0 s))
      = fun s => g_limit p (updated_u p uprev eps x0 s) := by
    funext s
    rw [updated_u_upd]
    rfl
  unfold calc_result
  rw [hu, hg]
  simp only [rollout_upd]
  rfl

/-- C10: the obstacle set and the collision safety margin are dead
configuration for the solver — `calc_control_input` reads neither (in any
of its runtime checks or in its result), so two runs that differ only in
those fields return identical actions, sequences and trajectories — and
identical errors — for the same state and the same noise draw. -/
theorem calc_ignores_obstacles (p : MPPIParams) (O : List (ℝ × ℝ × ℝ)) (m : ℝ)
    (uprev : ℕ → Control) (x0 : State) (eps : ℕ → ℕ → Control) :
    calc_control_input
        { p with obstacle_circles := O, collision_safety_margin_rate := m } uprev x0 eps
      = calc_control_input p uprev x0 eps := by
  unfold calc_control_input
  rw [calc_result_upd]
  rfl

/-! ### The collision predicate -/

set_option maxHeartbeats 400000 in
/-- A rotated footprint point with offsets bounded by `B` stays outside an
obstacle whose center is at least `r + B` away from the pose. -/
lemma far_point_outside (a b θ sx sy ox oy r B : ℝ) (hr : 0 ≤ r) (hB : 0 ≤ B)
    (hab : a ^ 2 + b ^ 2 ≤ B ^ 2)
    (hfar : (r + B) ^ 2 ≤ (sx - ox) ^ 2 + (sy - oy) ^ 2) :
    r ^ 2 ≤ (a * Real.cos θ - b * Real.sin θ + (sx - ox)) ^ 2
      + (a * Real.sin θ + b * Real.cos θ + (sy - oy)) ^ 2 := by
  set ux := a * Real.cos θ - b * Real.sin θ with hux
  set uy := a * Real.sin θ + b * Real.cos θ with huy
  set dx := sx - ox with hdx
  set dy := sy - oy with hdy
  have hU : ux ^ 2 + uy ^ 2 = a ^ 2 + b ^ 2 := by
    rw [hux, huy]
    linear_combination (a ^ 2 + b ^ 2) * Real.sin_sq_add_cos_sq θ
  have hU2 : ux ^ 2 + uy ^ 2 ≤ B ^ 2 := by rw [hU]; exact hab
  have hsu0 : 0 ≤ Real.sqrt (ux ^ 2 + uy ^ 2) := Real.sqrt_nonneg _
  have hsd0 : 0 ≤ Real.sqrt (dx ^ 2 + dy ^ 2) := Real.sqrt_nonneg _
  have hsu2 : Real.sqrt (ux ^ 2 + uy ^ 2) ^ 2 = ux ^ 2 + uy ^ 2 := Real.sq_sqrt (by positivity)
  have hsd2 : Real.sqrt (dx ^ 2 + dy ^ 2) ^ 2 = dx ^ 2 + dy ^ 2 := Real.sq_sqrt (by positivity)
  have hsuB : Real.sqrt (ux ^ 2 + uy ^ 2) ≤ B := by
    calc Real.sqrt (ux ^ 2 + uy ^ 2) ≤ Real.sqrt (B ^ 2) := Real.sqrt_le_sqrt hU2
    _ = B := Real.sqrt_sq hB
  have hsdrB : r + B ≤ Real.sqrt (dx ^ 2 + dy ^ 2) := by
    calc r + B = Real.sqrt ((r + B) ^ 2) := (Real.sqrt_sq (by linarith)).symm
    _ ≤ Real.sqrt (dx ^ 2 + dy ^ 2) := Real.sqrt_le_sqrt hfar
  have hCS : (ux * dx + uy * dy) ^ 2
      ≤ (Real.sqrt (ux ^ 2 + uy ^ 2) * Real.sqrt (dx ^ 2 + dy ^ 2)) ^ 2 := by
    have h2 : (ux * dx + uy * dy) ^ 2 ≤ (ux ^ 2 + uy ^ 2) * (dx ^ 2 + dy ^ 2) := by
      nlinarith [sq_nonneg (ux * dy - uy * dx)]
    calc (ux * dx + uy * dy) ^ 2 ≤ (ux ^ 2 + uy ^ 2) * (dx ^ 2 + dy ^ 2) := h2
    _ = (Real.sqrt (ux ^ 2 + uy ^ 2) * Real.sqrt (dx ^ 2 + dy ^ 2)) ^ 2 := by
        rw [mul_pow, hsu2, hsd2]
  have hP : -(Real.sqrt (ux ^ 2 + uy ^ 2) * Real.sqrt (dx ^ 2 + dy ^ 2))
      ≤ ux * dx + uy * dy := by
    nlinarith [hCS, mul_nonneg hsu0 hsd0]
  have hgoal : (ux + dx) ^ 2 + (uy + dy) ^ 2
      = Real.sqrt (ux ^ 2 + uy ^ 2) ^ 2 + 2 * (ux * dx + uy * dy)
        + Real.sqrt (dx ^ 2 + dy ^ 2) ^ 2 := by
    rw [hsu2, hsd2]
    ring
  have hfinal : r ^ 2 ≤ (Real.sqrt (dx ^ 2 + dy ^ 2) - Real.sqrt (ux ^ 2 + uy ^ 2)) ^ 2 := by
    have hrs : r ≤ Real.sqrt (dx ^ 2 + dy ^ 2) - Real.sqrt (ux ^ 2 + uy ^ 2) := by linarith
    nlinarith [hrs, hr]
  nlinarith [hP, hgoal, hfinal]

/-- Configuration whose only obstacle is centered at the origin with radius
`0.1` — positive but smaller than the scaled footprint half-extents
(`0.48` and `0.36`). -/
def smallObsParams : MPPIParams :=
  mppi_init 0.05 0.5 0.6 0.8 2 2 ⟨15, 5, 0⟩ 30 50 0 50 1 2 2
    (fun i j => if i = j then 0.2 else 0) (50, 50, 1) (50, 50, 1) false false
    [(0, 0, 0.1)] 1.2

/-- Configuration whose only obstacle is centered at the origin with radius
`2`, larger than the footprint. -/
def bigObsParams : MPPIParams :=
  mppi_init 0.05 0.5 0.6 0.8 2 2 ⟨15, 5, 0⟩ 30 50 0 50 1 2 2
    (fun i j => if i = j then 0.2 else 0) (50, 50, 1) (50, 50, 1) false false
    [(0, 0, 2)] 1.2

/-- C9 counterexample: a robot posed exactly at the center of an obstacle
of positive radius `0.1` is reported NOT collided, because all footprint
boundary sample points (the only points `_is_collided` tests) lie outside
the small circle. -/
theorem collision_false_at_center :
    ((0 : ℝ) < 0.1) ∧ is_collided smallObsParams ⟨0, 0, 0⟩ = false := by
  refine ⟨by norm_num, ?_⟩
  unfold is_collided
  rw [List.any_eq_false]
  intro obs hmem
  simp only [show smallObsParams.obstacle_circles = [((0 : ℝ), (0 : ℝ), (0.1 : ℝ))] from rfl,
    List.mem_cons, List.not_mem_nil, or_false] at hmem
  subst hmem
  rw [Bool.not_eq_true, List.any_eq_false]
  intro q hq
  unfold affine_transform robot_shape_pts at hq
  simp only [show smallObsParams.robot_l = 0.8 from rfl,
    show smallObsParams.robot_w = 0.6 from rfl,
    show smallObsParams.collision_safety_margin_rate = 1.2 from rfl,
    show (⟨0, 0, 0⟩ : State).yaw = 0 from rfl, show (⟨0, 0, 0⟩ : State).x = 0 from rfl,
    show (⟨0, 0, 0⟩ : State).y = 0 from rfl,
    Real.cos_zero, Real.sin_zero, mul_one, mul_zero, add_zero, zero_add, sub_zero,
    List.map_cons, List.map_nil, List.take_succ_cons, List.take_zero,
    List.mem_append, List.mem_cons, List.not_mem_nil, or_false] at hq
  rw [decide_eq_true_eq]
  rcases hq with (h | h | h | h | h | h | h | h | h) | h <;> subst h <;> norm_num

set_option maxHeartbeats 1000000 in
/-- C9 amended: the collision predicate is true for a pose at an obstacle's
center only when the radius exceeds the reachable footprint sample points —
in particular when it exceeds half the scaled robot length; a positive but
small radius yields false.  It is false whenever every obstacle's center is
at least its radius plus a bound `B` on the footprint circumradius away
from the pose. -/
theorem is_collided_center_and_far (p : MPPIParams) (s : State) :
    ((∃ obs ∈ p.obstacle_circles, s.x = obs.1 ∧ s.y = obs.2.1 ∧
        0 ≤ p.robot_l * p.collision_safety_margin_rate ∧
        0.5 * (p.robot_l * p.collision_safety_margin_rate) < obs.2.2) →
      is_collided p s = true) ∧
    (∀ B : ℝ, 0 ≤ B →
      (0.5 * (p.robot_l * p.collision_safety_margin_rate)) ^ 2
          + (0.5 * (p.robot_w * p.collision_safety_margin_rate)) ^ 2 ≤ B ^ 2 →
      (∀ obs ∈ p.obstacle_circles, 0 ≤ obs.2.2 ∧
        (obs.2.2 + B) ^ 2 ≤ (s.x - obs.1) ^ 2 + (s.y - obs.2.1) ^ 2) →
      is_collided p s = false) := by
  constructor
  · rintro ⟨obs, hmem, hx, hy, hvl, hr⟩
    unfold is_collided
    rw [List.any_eq_true]
    refine ⟨obs, hmem, ?_⟩
    rw [List.any_eq_true]
    unfold affine_transform robot_shape_pts
    simp only [List.map_cons, List.map_nil]
    refine ⟨_, List.mem_append_left _ (List.mem_cons_self _ _), ?_⟩
    rw [decide_eq_true_eq, hx, hy]
    dsimp only
    have hcs := Real.sin_sq_add_cos_sq s.yaw
    have hL : (0 : ℝ) ≤ 0.5 * (p.robot_l * p.collision_safety_margin_rate) := by linarith
    have hsum : (0.5 * (p.robot_l * p.collision_safety_margin_rate)) ^ 2
        * (Real.sin s.yaw ^ 2 + Real.cos s.yaw ^ 2)
        = (0.5 * (p.robot_l * p.collision_safety_margin_rate)) ^ 2 := by
      rw [hcs]
      ring
    have hrr := mul_self_lt_mul_self hL hr
    nlinarith [hsum, hrr]
  · intro B hB hfoot hobs
    unfold is_collided
    rw [List.any_eq_false]
    intro obs hmem
    rw [Bool.not_eq_true, List.any_eq_false]
    intro q hq
    obtain ⟨hr, hfar⟩ := hobs obs hmem
    have hq' : q ∈ (robot_shape_pts (p.robot_l * p.collision_safety_margin_rate)
        (p.robot_w * p.collision_safety_margin_rate)).map fun pt =>
          (pt.1 * Real.cos s.yaw - pt.2 * Real.sin s.yaw + s.x,
           pt.1 * Real.sin s.yaw + pt.2 * Real.cos s.yaw + s.y) := by
      unfold affine_transform at hq
      rcases List.mem_append.mp hq with h | h
      · exact h
      · exact List.take_subset 1 _ h
    obtain ⟨pt, hpt, rfl⟩ := List.mem_map.mp hq'
    rw [decide_eq_true_eq, not_lt]
    have hout : ∀ a b : ℝ, a ^ 2 + b ^ 2 ≤ B ^ 2 →
        obs.2.2 ^ 2 ≤ (a * Real.cos s.yaw - b * Real.sin s.yaw + s.x - obs.1) ^ 2
          + (a * Real.sin s.yaw + b * Real.cos s.yaw + s.y - obs.2.1) ^ 2 := by
      intro a b hab
      have H := far_point_outside a b s.yaw s.x s.y obs.1 obs.2.1 obs.2.2 B hr hB hab hfar
      nlinarith [H]
    show obs.2.2 ^ 2 ≤ (pt.1 * Real.cos s.yaw - pt.2 * Real.sin s.yaw + s.x - obs.1) ^ 2
      + (pt.1 * Real.sin s.yaw + pt.2 * Real.cos s.yaw + s.y - obs.2.1) ^ 2
    refine hout pt.1 pt.2 ?_
    unfold robot_shape_pts at hpt
    simp only [List.mem_cons, List.not_mem_nil, or_false] at hpt
    have hL := sq_nonneg (0.5 * (p.robot_l * p.collision_safety_margin_rate))
    have hW := sq_nonneg (0.5 * (p.robot_w * p.collision_safety_margin_rate))
    rcases hpt with h | h | h | h | h | h | h | h | h <;> subst h <;> dsimp only <;>
      nlinarith [hfoot, hL, hW]

/-- Witness for the amended C9: collided at the center of the radius-2
obstacle; not collided five units away from the radius-0.1 obstacle. -/
theorem is_collided_center_and_far_witness :
    is_collided bigObsParams ⟨0, 0, 0⟩ = true ∧
      is_collided smallObsParams ⟨5, 0, 0⟩ = false := by
  constructor
  · refine (is_collided_center_and_far bigObsParams ⟨0, 0, 0⟩).1 ⟨(0, 0, 2), ?_, ?_, ?_, ?_, ?_⟩
    · rw [show bigObsParams.obstacle_circles = [(0, 0, 2)] from rfl]
      exact List.mem_cons_self _ _
    · rfl
    · rfl
    · rw [show bigObsParams.robot_l = 0.8 from rfl,
        show bigObsParams.collision_safety_margin_rate = 1.2 from rfl]
      norm_num
    · rw [show bigObsParams.robot_l = 0.8 from rfl,
        show bigObsParams.collision_safety_margin_rate = 1.2 from rfl]
      norm_num
  · refine (is_collided_center_and_far smallObsParams ⟨5, 0, 0⟩).2 2 (by norm_num) ?_ ?_
    · rw [show smallObsParams.robot_l = 0.8 from rfl,
        show smallObsParams.robot_w = 0.6 from rfl,
        show smallObsParams.collision_safety_margin_rate = 1.2 from rfl]
      norm_num
    · intro obs hmem
      rw [show smallObsParams.obstacle_circles = [(0, 0, 0.1)] from rfl] at hmem
      simp only [List.mem_cons, List.not_mem_nil, or_false] at hmem
      subst hmem
      norm_num

end MPPI
